import Mathlib

/-!
Verification development for the Recipe Explorer CLI's remote-client layer
(`src/api.js`) and its cache coordinator.  Each exported function of
`api.js` is shallowly embedded as a Lean function over an explicit
environment describing the outcome of each outbound request; JavaScript
`Map`-based de-duplication, truthiness checks, retry recursion and the
`Promise.race` winner are modelled explicitly.
-/

namespace RecipeExplorer

/-- A decoded meal record.  `idMeal` is `none` when the record lacks a
truthy `idMeal` field; `payload` stands for the rest of the (opaque)
JSON object, so two records with the same id can still differ. -/
structure Meal where
  idMeal : Option String
  payload : String
deriving DecidableEq, Repr

/-- Outcome of one outbound `fetch` as observed by the calling code:
`failure` covers a rejected fetch or a `json()` that throws; `notOk s`
is a settled response with `response.ok` false and status `s`;
`ok meals` is an ok response whose decoded body has `meals` equal to
`none` (JSON `null` or absent field) or `some` list. -/
inductive CallResult where
  | failure
  | notOk (status : Nat)
  | ok (meals : Option (List Meal))
deriving DecidableEq, Repr

/-- Whether the call settled as an ok response (the only branch of
`getMealById` that does not retry). -/
def CallResult.isSuccess : CallResult → Bool
  | .ok _ => true
  | _ => false

/-- Whether the call failed (rejected fetch / thrown decode, or a
non-ok status); in `searchMealsByFirstLetter` both kinds yield an
empty partial result. -/
def CallResult.isFailureCall : CallResult → Bool
  | .failure => true
  | .notOk _ => true
  | .ok _ => false

/-- JavaScript `letter.charAt(0)`: the one-character string holding the
first character, or the empty string for an empty input. -/
def charAt0 (s : String) : String :=
  match s.data with
  | [] => ""
  | c :: _ => String.mk [c]

/-! ## JavaScript `Map` semantics

`new Map(pairs)` inserts the pairs in order with `map.set`: setting an
existing key updates its value in place (the key keeps its original
insertion position), setting a new key appends it.  `map.values()`
iterates values in key-insertion order.  We model the map as an
association list with unique keys. -/

/-- One `map.set(k, v)`: update the value of `k` in place if present,
else append `(k, v)`. -/
def jsMapSet {α β : Type} [DecidableEq α] (m : List (α × β)) (k : α) (v : β) :
    List (α × β) :=
  if k ∈ m.map Prod.fst then
    m.map (fun p => if p.1 = k then (p.1, v) else p)
  else m ++ [(k, v)]

/-- Folding `map.set` over a pair list, as `new Map(pairs)` does. -/
def jsMapBuild {α β : Type} [DecidableEq α] (m : List (α × β)) :
    List (α × β) → List (α × β)
  | [] => m
  | p :: ps => jsMapBuild (jsMapSet m p.1 p.2) ps

/-- `Array.from(new Map(pairs).values())`. -/
def jsMapValues {α β : Type} [DecidableEq α] (ps : List (α × β)) : List β :=
  (jsMapBuild [] ps).map Prod.snd

/-- First-match lookup in an association list (reference semantics for
reasoning about `jsMapBuild`). -/
def alookup {α β : Type} [DecidableEq α] (k : α) : List (α × β) → Option β
  | [] => none
  | p :: ps => if k = p.1 then some p.2 else alookup k ps

/-- The value of the last pair carrying key `k`, if any. -/
def lastVal {α β : Type} [DecidableEq α] (k : α) : List (α × β) → Option β
  | [] => none
  | p :: ps =>
    match lastVal k ps with
    | some w => some w
    | none => if k = p.1 then some p.2 else none

/-- The keys of a list in order of first occurrence, skipping those
already in `seen`. -/
def firstKeys {α : Type} [DecidableEq α] (seen : List α) : List α → List α
  | [] => []
  | k :: ks => if k ∈ seen then firstKeys seen ks else k :: firstKeys (k :: seen) ks

/-! ## `src/api.js` -/

/-- Line 132's pair for one meal: `meal?.idMeal ? [meal.idMeal, meal] :
[null, null]` — a meal with a truthy id maps to `(id, meal)`, an id-less
meal maps to the `(null, null)` pair. -/
def pairOf (m : Meal) : Option String × Option Meal :=
  match m.idMeal with
  | some i => (some i, some m)
  | none => (none, none)

/-- Lines 131–132 of `searchMealsByFirstLetter`:
`Array.from(new Map(all.map(...)).values()).filter(meal => meal !== null)`. -/
def dedupMeals (all : List Meal) : List Meal :=
  (jsMapValues (all.map pairOf)).filterMap id

/-- The per-letter async callback of `searchMealsByFirstLetter`
(lines 114–127): a rejected fetch or non-ok status is absorbed into an
empty partial result; otherwise `info.meals || []`. -/
def perKeyResult : CallResult → List Meal
  | .failure => []
  | .notOk _ => []
  | .ok meals => meals.getD []

/-- `results.flat()` after `Promise.all` (lines 129–131): the per-key
partial results concatenated in fan-out order.  `env` gives the outcome
of the request for each (first-character) key. -/
def fanoutConcat (letters : List String) (env : String → CallResult) : List Meal :=
  (letters.map (fun letter => perKeyResult (env (charAt0 letter)))).flatten

/-- `searchMealsByFirstLetter` (lines 100–139): fan out one request per
letter, concatenate the partial results, de-duplicate through a JS Map
keyed by `idMeal` and drop the null placeholder. -/
def searchMealsByFirstLetter (letters : List String) (env : String → CallResult) :
    List Meal :=
  dedupMeals (fanoutConcat letters env)

/-- `searchMealsByName` (lines 18–41): non-ok status throws and the
function's own catch returns `[]`; a rejected fetch or thrown decode also
returns `[]`; otherwise `data.meals || []`. -/
def searchMealsByName (call : CallResult) : List Meal :=
  match call with
  | .failure => []
  | .notOk _ => []
  | .ok meals => meals.getD []

/-- `data.meals ? data.meals[0] || null : null` (line 77): first element
of the list, `null` when the list is empty or the field is null/absent. -/
def mealsFirst : Option (List Meal) → Option Meal
  | none => none
  | some [] => none
  | some (m :: _) => some m

/-- Observable trace of one `getMealById` call: the value it resolves to
(`none` models `null`), the number of fetch attempts performed, and the
number of fixed 1000 ms backoff sleeps taken between attempts. -/
structure RetryTrace where
  result : Option Meal
  calls : Nat
  waits : Nat
deriving DecidableEq, Repr

/-- `getMealById` (lines 55–87) with the attempt counter made explicit.
`env i` is the outcome of the `(i+1)`-th fetch of this call chain.  An ok
response returns `mealsFirst` of the body without retrying.  A non-ok
status or a thrown error retries after one backoff sleep while
`attempts > 1` (the non-ok branch with `attempts <= 1` throws into the
function's own catch); with attempts exhausted it logs and resolves null. -/
def getMealByIdFrom (env : Nat → CallResult) : Nat → Nat → RetryTrace
  | idx, attempts =>
    match env idx with
    | .ok meals => ⟨mealsFirst meals, 1, 0⟩
    | _ =>
      if _h : attempts > 1 then
        let t := getMealByIdFrom env (idx + 1) (attempts - 1)
        ⟨t.result, t.calls + 1, t.waits + 1⟩
      else ⟨none, 1, 0⟩
termination_by _idx attempts => attempts
decreasing_by omega

/-- `getMealById(id, attempts)`: the recursion starts at the first fetch. -/
def getMealById (env : Nat → CallResult) (attempts : Nat) : RetryTrace :=
  getMealByIdFrom env 0 attempts

/-- Which of the two raced promises of `getMealsByIngredient` settles
first: the fetch chain or the rejection timer. -/
inductive RaceWinner where
  | fetchFirst
  | timerFirst
deriving DecidableEq, Repr

/-- Result type of `getMealsByIngredient`: a meal list or one of the two
user-facing strings. -/
inductive IngredientResult where
  | meals (ms : List Meal)
  | msg (s : String)
deriving DecidableEq, Repr

/-- The string returned when the race is lost to the timer (line 182). -/
def timeoutMessage : String := "took too long"

/-- The string returned from the generic catch branch (line 185). -/
def genericErrorMessage : String := "An unexpected error has been occurred"

/-- `getMealsByIngredient` (lines 153–190).  If the timer rejects first,
the catch recognises its message and returns `timeoutMessage`.  If the
fetch chain settles first: a rejected fetch (or thrown decode) reaches the
catch with a different message, giving `genericErrorMessage`; a non-ok
status is absorbed into `[]`; otherwise `info.meals || []`. -/
def getMealsByIngredient (call : CallResult) (w : RaceWinner) : IngredientResult :=
  match w with
  | .timerFirst => .msg timeoutMessage
  | .fetchFirst =>
    match call with
    | .failure => .msg genericErrorMessage
    | .notOk _ => .meals []
    | .ok meals => .meals (meals.getD [])

/-- The `recipe` argument of `getRelatedRecipes`: `ok` is the truthiness
of its `ok` property (an ordinary recipe object has no such property, so
it is `false`), `strCategory` is `none` when absent or falsy. -/
structure Recipe where
  ok : Bool
  strCategory : Option String
  idMeal : Option String
deriving DecidableEq, Repr

/-- What a call to `getRelatedRecipes` / `getRandomMeal` evaluates to:
`jsUndefined` models falling out of the try block with no `return` statement
(JavaScript `undefined`), `list` a returned array. -/
inductive RelatedResult where
  | jsUndefined
  | list (ms : List Meal)
deriving DecidableEq, Repr

/-- The try block of `getRelatedRecipes` (lines 213–224).  When the guard
`recipe.ok && recipe.strCategory` is truthy it fetches the category, then
every continuation throws: on a non-ok response the template literal of
line 217 reads `ans` inside its own temporal dead zone (`const ans` is
declared on line 219), and on an ok response line 219 evaluates
`response.json()` although no `response` is in scope in this function —
both ReferenceErrors.  A rejected fetch throws as well.  The lines after
219 (filter by id, slice to `limit`) are unreachable.  When the guard is
falsy the block completes without returning. -/
def relatedTryBlock (env : String → CallResult) (recipe : Recipe) :
    Except String Unit :=
  if recipe.ok && recipe.strCategory.isSome then
    match env ("filter.php?c=" ++ recipe.strCategory.getD "") with
    | .failure => .error "TypeError: fetch failed"
    | .notOk _ => .error "ReferenceError: cannot access ans before initialization"
    | .ok _ => .error "ReferenceError: response is not defined"
  else .ok ()

/-- `getRelatedRecipes` (lines 203–229): any throw is caught, logged and
turned into `[]`; a falsy guard lets the function return `undefined`.
`limit` is never consulted on a reachable path. -/
def getRelatedRecipes (env : String → CallResult) (recipe : Recipe) (_limit : Nat) :
    RelatedResult :=
  match relatedTryBlock env recipe with
  | .error _ => .list []
  | .ok _ => .jsUndefined

/-- The try block of `getRandomMeal` (lines 242–253), a verbatim copy of
the body of `getRelatedRecipes`: its first expression `recipe.ok` reads
the identifier `recipe`, which is bound nowhere in this parameterless
function, so evaluation throws a ReferenceError before any request is
issued; the rest of the block is unreachable. -/
def randomTryBlock : Except String Unit :=
  .error "ReferenceError: recipe is not defined"

/-- `getRandomMeal` (lines 236–258): the try block throws at once, the
catch logs and returns `[]`.  `env` (outcomes of any request it might
make) is never consulted because no request is ever issued. -/
def getRandomMeal (_env : String → CallResult) : RelatedResult :=
  match randomTryBlock with
  | .error _ => .list []
  | .ok _ => .jsUndefined

/-! ## Reference descriptions of the de-duplication contract

Two candidate contracts for lines 131–134, written from the spec's words
so that the code's behaviour can be compared against them: the spec says
the first occurrence of each id is kept; the `Map`-based code keeps ids
in first-occurrence order but stores the last record seen for each id. -/

/-- The ids occurring in a meal list, in order of first occurrence,
skipping ids in `seen` and id-less records. -/
def firstIds (seen : List String) : List Meal → List String
  | [] => []
  | m :: ms =>
    match m.idMeal with
    | none => firstIds seen ms
    | some i => if i ∈ seen then firstIds seen ms else i :: firstIds (i :: seen) ms

/-- The last record of the list carrying id `i`, if any. -/
def lastWith (i : String) : List Meal → Option Meal
  | [] => none
  | m :: ms =>
    match lastWith i ms with
    | some w => some w
    | none => if m.idMeal = some i then some m else none

/-- The first record of the list carrying id `i`, if any. -/
def firstWith (i : String) (ms : List Meal) : Option Meal :=
  ms.find? (fun m => decide (m.idMeal = some i))

/-- The claimed contract, from the spec's words: one record per id, ids
in first-occurrence order, each id keeping its first-seen record. -/
def dedupFirstSpec (all : List Meal) : List Meal :=
  (firstIds [] all).filterMap (fun i => firstWith i all)

/-- The amended contract: one record per id, ids in first-occurrence
order, each id keeping the last record seen for it (id-less records
dropped). -/
def dedupLastSpec (all : List Meal) : List Meal :=
  (firstIds [] all).filterMap (fun i => lastWith i all)

/-! ## Cache-Or-Fetch Coordinator

The repository's `cache.js` module (imported by `app.js` as
`cache.getCachedOrFetch`) is not among the provided sources, so the
coordinator is modelled from the spec (sections 3, 4.1, 4.2). -/

/-- Modelled from the spec: one persisted cache entry, value plus
`storedAt` timestamp and `ttl` duration; it is a miss exactly when
`now - storedAt > ttl` (section 3). -/
structure CacheEntry (V : Type) where
  value : V
  storedAt : Nat
  ttl : Nat
deriving DecidableEq, Repr

/-- Modelled from the spec: the cache store, a mapping from keys to
entries with unique keys (section 3). -/
structure CacheState (V : Type) where
  entries : List (String × CacheEntry V)
deriving DecidableEq, Repr

/-- Modelled from the spec: `get(key)`, an entry lookup that does not
itself evaluate TTL (section 4.1). -/
def cacheGet {V : Type} (s : CacheState V) (key : String) : Option (CacheEntry V) :=
  (s.entries.find? (fun p => decide (p.1 = key))).map Prod.snd

/-- Modelled from the spec: an entry is fresh at `now` unless
`now - storedAt > ttl` (section 3). -/
def entryFresh {V : Type} (e : CacheEntry V) (now : Nat) : Bool :=
  decide (now - e.storedAt ≤ e.ttl)

/-- Modelled from the spec: `put(key, value, ttl)` with overwrite
semantics (section 4.1). -/
def cachePut {V : Type} (s : CacheState V) (key : String) (v : V) (now ttl : Nat) :
    CacheState V :=
  ⟨(key, ⟨v, now, ttl⟩) :: s.entries.filter (fun p => decide (p.1 ≠ key))⟩

/-- The single outcome of awaiting a producer: a value or a raised
failure. -/
inductive ProducerResult (V : Type) where
  | ok (v : V)
  | err (msg : String)
deriving DecidableEq, Repr

/-- No fresh entry is present for `key` at `now`: the entry is absent or
expired. -/
def cacheMiss {V : Type} (s : CacheState V) (key : String) (now : Nat) : Bool :=
  match cacheGet s key with
  | none => true
  | some e => ! entryFresh e now

/-- Modelled from the spec: `getOrFetch(key, producer)` (section 4.2).
On a fresh hit, return the stored value with zero producer invocations.
Otherwise invoke the producer exactly once: on success store the value
under `key` with the default TTL and return it; on failure cache nothing
and propagate the failure unmodified.  Returns (outcome, new cache
state, number of producer invocations). -/
def getCachedOrFetch {V : Type} (s : CacheState V) (now : Nat) (key : String)
    (producer : ProducerResult V) (ttl : Nat) :
    ProducerResult V × CacheState V × Nat :=
  match cacheGet s key with
  | some e =>
    if entryFresh e now then (.ok e.value, s, 0)
    else
      match producer with
      | .ok v => (.ok v, cachePut s key v now ttl, 1)
      | .err msg => (.err msg, s, 1)
  | none =>
    match producer with
    | .ok v => (.ok v, cachePut s key v now ttl, 1)
    | .err msg => (.err msg, s, 1)

/-! ## Properties of the JavaScript Map model -/

theorem mapFst_jsMapSet {α β : Type} [DecidableEq α] (m : List (α × β)) (k : α) (v : β) :
    (jsMapSet m k v).map Prod.fst =
      if k ∈ m.map Prod.fst then m.map Prod.fst else m.map Prod.fst ++ [k] := by
  unfold jsMapSet
  split
  · rw [List.map_map]
    apply List.map_congr_left
    intro p _
    by_cases hp : p.1 = k <;> simp [Function.comp, hp]
  · rw [List.map_append]
    rfl

theorem alookup_append {α β : Type} [DecidableEq α] (k : α) (m l : List (α × β)) :
    alookup k (m ++ l) =
      match alookup k m with
      | some v => some v
      | none => alookup k l := by
  induction m with
  | nil => rfl
  | cons p ps ih =>
    by_cases h : k = p.1 <;> simp [alookup, h, ih]

theorem alookup_eq_none {α β : Type} [DecidableEq α] (k : α) (m : List (α × β))
    (h : k ∉ m.map Prod.fst) : alookup k m = none := by
  induction m with
  | nil => rfl
  | cons p ps ih =>
    simp only [List.map_cons, List.mem_cons] at h
    push_neg at h
    simp [alookup, h.1, ih h.2]

theorem alookup_map_update {α β : Type} [DecidableEq α] (m : List (α × β)) (k k' : α) (v : β) :
    alookup k' (m.map (fun p => if p.1 = k then (p.1, v) else p)) =
      if k' = k then (if k ∈ m.map Prod.fst then some v else none)
      else alookup k' m := by
  induction m with
  | nil => simp [alookup]
  | cons p ps ih =>
    by_cases hp : p.1 = k
    · by_cases hk : k' = p.1
      · simp [List.map_cons, alookup, hp, hk, hk.trans hp, List.mem_cons]
      · have hkk : ¬ k' = k := fun e => hk (e.trans hp.symm)
        simp [List.map_cons, alookup, hp, hk, hkk, ih]
    · by_cases hk : k' = p.1
      · have hkk : ¬ k' = k := fun e => hp (by rw [← hk, e])
        simp [List.map_cons, alookup, hp, hk, hkk]
      · by_cases hkk : k' = k
        · subst hkk
          have hiff : (k' ∈ p.1 :: List.map Prod.fst ps) ↔ k' ∈ List.map Prod.fst ps := by
            simp [List.mem_cons, hk]
          simp only [List.map_cons, alookup, if_neg hp, if_neg hk, ih, if_pos rfl]
          rw [if_congr hiff rfl rfl]
        · simp [List.map_cons, alookup, hp, hk, hkk, ih]

theorem alookup_jsMapSet {α β : Type} [DecidableEq α] (m : List (α × β)) (k k' : α) (v : β) :
    alookup k' (jsMapSet m k v) = if k' = k then some v else alookup k' m := by
  unfold jsMapSet
  by_cases hmem : k ∈ m.map Prod.fst
  · rw [if_pos hmem, alookup_map_update, if_pos hmem]
  · rw [if_neg hmem, alookup_append]
    by_cases hk : k' = k
    · subst hk
      rw [alookup_eq_none k' m hmem]
      simp [alookup]
    · cases hm : alookup k' m with
      | some w => simp [hm, hk]
      | none => simp [alookup, hk]

theorem alookup_jsMapBuild {α β : Type} [DecidableEq α] (k : α) (ps : List (α × β)) :
    ∀ m, alookup k (jsMapBuild m ps) =
      match lastVal k ps with
      | some w => some w
      | none => alookup k m := by
  induction ps with
  | nil => intro m; rfl
  | cons p ps ih =>
    intro m
    rw [jsMapBuild, ih, lastVal]
    cases hl : lastVal k ps with
    | some w => rfl
    | none =>
      rw [alookup_jsMapSet]
      by_cases hk : k = p.1 <;> simp [hk]

theorem firstKeys_congr {α : Type} [DecidableEq α] (l : List α) :
    ∀ s t : List α, (∀ x, x ∈ s ↔ x ∈ t) → firstKeys s l = firstKeys t l := by
  induction l with
  | nil => intro s t _; rfl
  | cons k ks ih =>
    intro s t h
    rw [firstKeys, firstKeys]
    by_cases hk : k ∈ s
    · rw [if_pos hk, if_pos ((h k).1 hk)]
      exact ih s t h
    · rw [if_neg hk, if_neg (fun hkt => hk ((h k).2 hkt))]
      exact congrArg (k :: ·) (ih (k :: s) (k :: t) (fun x => by simp [h x]))

theorem mapFst_jsMapBuild {α β : Type} [DecidableEq α] (ps : List (α × β)) :
    ∀ m, (jsMapBuild m ps).map Prod.fst =
      m.map Prod.fst ++ firstKeys (m.map Prod.fst) (ps.map Prod.fst) := by
  induction ps with
  | nil => intro m; simp [jsMapBuild, firstKeys]
  | cons p ps ih =>
    intro m
    rw [jsMapBuild, ih, mapFst_jsMapSet, List.map_cons, firstKeys]
    by_cases hk : p.1 ∈ m.map Prod.fst
    · rw [if_pos hk, if_pos hk]
    · rw [if_neg hk, if_neg hk,
        firstKeys_congr (ps.map Prod.fst) (m.map Prod.fst ++ [p.1]) (p.1 :: m.map Prod.fst)
          (fun x => by simp [or_comm])]
      simp

theorem not_mem_seen_of_mem_firstKeys {α : Type} [DecidableEq α] (l : List α) :
    ∀ seen x, x ∈ firstKeys seen l → x ∉ seen := by
  induction l with
  | nil => intro seen x h; simp [firstKeys] at h
  | cons k ks ih =>
    intro seen x h
    rw [firstKeys] at h
    by_cases hk : k ∈ seen
    · rw [if_pos hk] at h
      exact ih seen x h
    · rw [if_neg hk] at h
      rcases List.mem_cons.1 h with rfl | h2
      · exact hk
      · intro hx
        exact ih (k :: seen) x h2 (List.mem_cons_of_mem k hx)

theorem firstKeys_nodup {α : Type} [DecidableEq α] (l : List α) :
    ∀ seen, (firstKeys seen l).Nodup := by
  induction l with
  | nil => intro seen; simp [firstKeys]
  | cons k ks ih =>
    intro seen
    rw [firstKeys]
    split
    · exact ih seen
    · rw [List.nodup_cons]
      refine ⟨fun hk => ?_, ih (k :: seen)⟩
      exact not_mem_seen_of_mem_firstKeys ks (k :: seen) k hk (List.mem_cons_self k seen)

theorem map_snd_eq_filterMap_alookup {α β : Type} [DecidableEq α] (m : List (α × β))
    (h : (m.map Prod.fst).Nodup) :
    m.map Prod.snd = (m.map Prod.fst).filterMap (fun k => alookup k m) := by
  induction m with
  | nil => rfl
  | cons p ps ih =>
    rw [List.map_cons] at h
    rw [List.nodup_cons] at h
    rw [List.map_cons, List.map_cons, List.filterMap_cons]
    have h0 : alookup p.1 (p :: ps) = some p.2 := by simp [alookup]
    rw [h0]
    congr 1
    rw [ih h.2]
    apply List.filterMap_congr
    intro k hk
    have hne : ¬ (k = p.1) := fun e => h.1 (e ▸ hk)
    simp [alookup, hne]

theorem jsMapValues_eq {α β : Type} [DecidableEq α] (ps : List (α × β)) :
    jsMapValues ps = (firstKeys [] (ps.map Prod.fst)).filterMap (fun k => lastVal k ps) := by
  have hkeys : (jsMapBuild [] ps).map Prod.fst = firstKeys [] (ps.map Prod.fst) := by
    simpa using mapFst_jsMapBuild ps []
  have hnd : ((jsMapBuild ([] : List (α × β)) ps).map Prod.fst).Nodup := by
    rw [hkeys]; exact firstKeys_nodup _ []
  rw [jsMapValues, map_snd_eq_filterMap_alookup _ hnd, hkeys]
  apply List.filterMap_congr
  intro k _
  rw [alookup_jsMapBuild]
  cases lastVal k ps <;> rfl

/-! ## Bridging the Map-based de-dup to the reference contracts -/

theorem pairOf_fst (m : Meal) : (pairOf m).1 = m.idMeal := by
  cases h : m.idMeal <;> simp [pairOf, h]

theorem lastVal_none_pairOf (ms : List Meal) :
    ∀ w, lastVal (none : Option String) (ms.map pairOf) = some w → w = none := by
  induction ms with
  | nil => intro w h; simp [lastVal] at h
  | cons m ms ih =>
    intro w h
    rw [List.map_cons, lastVal] at h
    cases hl : lastVal (none : Option String) (ms.map pairOf) with
    | some w2 =>
      rw [hl] at h
      exact ih w (hl.trans h)
    | none =>
      rw [hl] at h
      cases hid : m.idMeal with
      | none =>
        simp [pairOf, hid] at h
        exact h.symm
      | some j =>
        simp [pairOf, hid] at h

theorem lastVal_some_pairOf (ms : List Meal) (i : String) :
    ∀ w, lastVal (some i) (ms.map pairOf) = some w → ∃ m, w = some m := by
  induction ms with
  | nil => intro w h; simp [lastVal] at h
  | cons m ms ih =>
    intro w h
    rw [List.map_cons, lastVal] at h
    cases hl : lastVal (some i) (ms.map pairOf) with
    | some w2 =>
      rw [hl] at h
      exact ih w (hl.trans h)
    | none =>
      rw [hl] at h
      cases hid : m.idMeal with
      | none => simp [pairOf, hid] at h
      | some j =>
        simp only [pairOf, hid] at h
        by_cases hij : (some i : Option String) = some j
        · rw [if_pos hij] at h
          exact ⟨m, (Option.some.inj h).symm⟩
        · rw [if_neg hij] at h
          exact absurd h (by simp)

theorem lastVal_pairOf_bind (ms : List Meal) (i : String) :
    (lastVal (some i) (ms.map pairOf)).bind id = lastWith i ms := by
  induction ms with
  | nil => rfl
  | cons m ms ih =>
    rw [List.map_cons, lastVal, lastWith]
    cases hl : lastVal (some i) (ms.map pairOf) with
    | some w =>
      obtain ⟨m', rfl⟩ := lastVal_some_pairOf ms i w hl
      rw [hl] at ih
      rw [← ih]
      rfl
    | none =>
      have hlw : lastWith i ms = none := by rw [← ih, hl]; rfl
      rw [hlw]
      cases hid : m.idMeal with
      | none => simp [pairOf, hid]
      | some j =>
        simp only [pairOf, hid]
        by_cases hij : i = j
        · subst hij
          simp
        · have h1 : ¬ (some i : Option String) = some j := by simp [hij]
          have h2 : ¬ (some j : Option String) = some i := by
            intro e
            exact hij (Option.some.inj e).symm
          rw [if_neg h1, if_neg h2]
          rfl

theorem lastVal_pairOf_none_bind (ms : List Meal) :
    (lastVal (none : Option String) (ms.map pairOf)).bind id = none := by
  cases hl : lastVal (none : Option String) (ms.map pairOf) with
  | none => rfl
  | some w =>
    rw [lastVal_none_pairOf ms w hl]
    rfl

theorem firstIds_cons_none (seen : List String) (m : Meal) (ms : List Meal)
    (h : m.idMeal = none) : firstIds seen (m :: ms) = firstIds seen ms := by
  rw [firstIds, h]

theorem firstIds_cons_mem (seen : List String) (m : Meal) (ms : List Meal) (i : String)
    (h : m.idMeal = some i) (hi : i ∈ seen) :
    firstIds seen (m :: ms) = firstIds seen ms := by
  rw [firstIds, h]
  show (if i ∈ seen then firstIds seen ms else i :: firstIds (i :: seen) ms)
    = firstIds seen ms
  rw [if_pos hi]

theorem firstIds_cons_new (seen : List String) (m : Meal) (ms : List Meal) (i : String)
    (h : m.idMeal = some i) (hi : i ∉ seen) :
    firstIds seen (m :: ms) = i :: firstIds (i :: seen) ms := by
  rw [firstIds, h]
  show (if i ∈ seen then firstIds seen ms else i :: firstIds (i :: seen) ms)
    = i :: firstIds (i :: seen) ms
  rw [if_neg hi]

theorem firstKeys_filterMap_meals (ms : List Meal) :
    ∀ (so : List (Option String)) (ss : List String)
      (g : Option String → Option Meal) (h : String → Option Meal),
      (∀ i, some i ∈ so ↔ i ∈ ss) → g none = none → (∀ i, g (some i) = h i) →
      (firstKeys so (ms.map Meal.idMeal)).filterMap g = (firstIds ss ms).filterMap h := by
  induction ms with
  | nil => intro so ss g h _ _ _; rfl
  | cons m ms ih =>
    intro so ss g h hmem hg0 hg1
    rw [List.map_cons, firstKeys]
    cases hid : m.idMeal with
    | none =>
      rw [firstIds_cons_none ss m ms hid]
      by_cases hn : (none : Option String) ∈ so
      · rw [if_pos hn]
        exact ih so ss g h hmem hg0 hg1
      · rw [if_neg hn, List.filterMap_cons, hg0]
        exact ih (none :: so) ss g h (fun i => by simp [hmem i]) hg0 hg1
    | some i =>
      by_cases hi : i ∈ ss
      · rw [if_pos ((hmem i).2 hi), firstIds_cons_mem ss m ms i hid hi]
        exact ih so ss g h hmem hg0 hg1
      · rw [if_neg (fun hs => hi ((hmem i).1 hs)), firstIds_cons_new ss m ms i hid hi,
          List.filterMap_cons, List.filterMap_cons, hg1 i]
        have htail := ih (some i :: so) (i :: ss) g h
          (fun j => by simp [hmem j]) hg0 hg1
        cases h i with
        | none => simpa using htail
        | some b => simpa using htail

theorem dedupMeals_eq (all : List Meal) : dedupMeals all = dedupLastSpec all := by
  rw [dedupMeals, jsMapValues_eq, List.filterMap_filterMap]
  have hfst : (all.map pairOf).map Prod.fst = all.map Meal.idMeal := by
    rw [List.map_map]
    apply List.map_congr_left
    intro m _
    exact pairOf_fst m
  rw [hfst, dedupLastSpec]
  exact firstKeys_filterMap_meals all [] [] _ _ (fun i => by simp)
    (lastVal_pairOf_none_bind all) (fun i => lastVal_pairOf_bind all i)

/-! ## Structure of the de-duplicated output -/

theorem lastWith_idMeal (i : String) (ms : List Meal) :
    ∀ m, lastWith i ms = some m → m.idMeal = some i := by
  induction ms with
  | nil => intro m h; simp [lastWith] at h
  | cons x ms ih =>
    intro m h
    rw [lastWith] at h
    cases hl : lastWith i ms with
    | some w =>
      rw [hl] at h
      exact ih m (hl.trans h)
    | none =>
      rw [hl] at h
      by_cases hx : x.idMeal = some i
      · rw [if_pos hx] at h
        rw [← Option.some.inj h]
        exact hx
      · rw [if_neg hx] at h
        exact absurd h (by simp)

theorem lastWith_isSome_of_mem_firstIds (ms : List Meal) :
    ∀ seen i, i ∈ firstIds seen ms → (lastWith i ms).isSome = true := by
  induction ms with
  | nil => intro seen i h; simp [firstIds] at h
  | cons m ms ih =>
    intro seen i h
    cases hid : m.idMeal with
    | none =>
      rw [firstIds_cons_none seen m ms hid] at h
      rw [lastWith]
      cases hl : lastWith i ms with
      | some w => rfl
      | none =>
        have := ih seen i h
        rw [hl] at this
        simp at this
    | some j =>
      by_cases hj : j ∈ seen
      · rw [firstIds_cons_mem seen m ms j hid hj] at h
        rw [lastWith]
        cases hl : lastWith i ms with
        | some w => rfl
        | none =>
          have := ih seen i h
          rw [hl] at this
          simp at this
      · rw [firstIds_cons_new seen m ms j hid hj] at h
        rcases List.mem_cons.1 h with rfl | h2
        · rw [lastWith]
          cases hl : lastWith i ms with
          | some w => rfl
          | none => rw [if_pos hid]; rfl
        · rw [lastWith]
          cases hl : lastWith i ms with
          | some w => rfl
          | none =>
            have := ih (j :: seen) i h2
            rw [hl] at this
            simp at this

theorem firstIds_not_mem_seen (ms : List Meal) :
    ∀ seen i, i ∈ firstIds seen ms → i ∉ seen := by
  induction ms with
  | nil => intro seen i h; simp [firstIds] at h
  | cons m ms ih =>
    intro seen i h
    cases hid : m.idMeal with
    | none =>
      rw [firstIds_cons_none seen m ms hid] at h
      exact ih seen i h
    | some j =>
      by_cases hj : j ∈ seen
      · rw [firstIds_cons_mem seen m ms j hid hj] at h
        exact ih seen i h
      · rw [firstIds_cons_new seen m ms j hid hj] at h
        rcases List.mem_cons.1 h with rfl | h2
        · exact hj
        · intro hx
          exact ih (j :: seen) i h2 (List.mem_cons_of_mem j hx)

theorem firstIds_nodup (ms : List Meal) : ∀ seen, (firstIds seen ms).Nodup := by
  induction ms with
  | nil => intro seen; simp [firstIds]
  | cons m ms ih =>
    intro seen
    cases hid : m.idMeal with
    | none =>
      rw [firstIds_cons_none seen m ms hid]
      exact ih seen
    | some j =>
      by_cases hj : j ∈ seen
      · rw [firstIds_cons_mem seen m ms j hid hj]
        exact ih seen
      · rw [firstIds_cons_new seen m ms j hid hj, List.nodup_cons]
        refine ⟨fun hji => ?_, ih (j :: seen)⟩
        exact firstIds_not_mem_seen ms (j :: seen) j hji (List.mem_cons_self j seen)

theorem dedupLastSpec_map_idMeal (all : List Meal) :
    (dedupLastSpec all).map Meal.idMeal = (firstIds [] all).map some := by
  rw [dedupLastSpec, List.map_filterMap]
  have : ∀ i ∈ firstIds [] all,
      (lastWith i all).map Meal.idMeal = some (some i) := by
    intro i hi
    cases hl : lastWith i all with
    | none =>
      have := lastWith_isSome_of_mem_firstIds all [] i hi
      rw [hl] at this
      simp at this
    | some m =>
      show some m.idMeal = some (some i)
      exact congrArg some (lastWith_idMeal i all m hl)
  rw [List.filterMap_congr this]
  exact congrFun (List.filterMap_eq_map some) (firstIds [] all)

theorem mem_dedupLastSpec_idMeal (all : List Meal) (m : Meal)
    (h : m ∈ dedupLastSpec all) : ∃ i, m.idMeal = some i := by
  rw [dedupLastSpec] at h
  rcases List.mem_filterMap.1 h with ⟨i, _, hlw⟩
  exact ⟨i, lastWith_idMeal i all m hlw⟩

/-! ## Fan-out support -/

theorem perKeyResult_empty_of_failure (c : CallResult)
    (h : c.isFailureCall = true) : perKeyResult c = [] := by
  cases c with
  | failure => rfl
  | notOk s => rfl
  | ok meals => simp [CallResult.isFailureCall] at h

theorem flatten_map_eraseIdx {γ δ : Type} (f : γ → List δ) :
    ∀ (l : List γ) (i : Nat) (h : i < l.length), f (l.get ⟨i, h⟩) = [] →
      (l.map f).flatten = ((l.eraseIdx i).map f).flatten := by
  intro l
  induction l with
  | nil => intro i h; simp at h
  | cons x xs ih =>
    intro i h hf
    cases i with
    | zero =>
      rw [List.eraseIdx_cons_zero]
      rw [List.map_cons, List.flatten_cons]
      have : f x = [] := hf
      rw [this, List.nil_append]
    | succ j =>
      rw [List.eraseIdx_cons_succ]
      rw [List.map_cons, List.map_cons, List.flatten_cons, List.flatten_cons]
      have hj : j < xs.length := by
        simpa [Nat.succ_lt_succ_iff] using h
      rw [ih j hj hf]

theorem mealsFirst_eq_head (meals : Option (List Meal)) :
    mealsFirst meals = (meals.getD []).head? := by
  cases meals with
  | none => rfl
  | some l => cases l <;> rfl

/-! ## De-duplication ignores id-less records -/

theorem firstIds_filter_isSome (ms : List Meal) :
    ∀ seen, firstIds seen (ms.filter (fun m => m.idMeal.isSome)) = firstIds seen ms := by
  induction ms with
  | nil => intro seen; rfl
  | cons m ms ih =>
    intro seen
    rw [List.filter_cons]
    cases hid : m.idMeal with
    | none =>
      rw [firstIds_cons_none seen m ms hid]
      rw [if_neg (by simp [hid])]
      exact ih seen
    | some i =>
      rw [if_pos (by simp [hid])]
      by_cases hi : i ∈ seen
      · rw [firstIds_cons_mem seen m _ i hid hi, firstIds_cons_mem seen m ms i hid hi]
        exact ih seen
      · rw [firstIds_cons_new seen m _ i hid hi, firstIds_cons_new seen m ms i hid hi]
        exact congrArg (i :: ·) (ih (i :: seen))

theorem lastWith_filter_isSome (i : String) (ms : List Meal) :
    lastWith i (ms.filter (fun m => m.idMeal.isSome)) = lastWith i ms := by
  induction ms with
  | nil => rfl
  | cons m ms ih =>
    rw [List.filter_cons]
    cases hid : m.idMeal with
    | none =>
      rw [if_neg (by simp [hid]), ih, lastWith]
      cases hl : lastWith i ms with
      | some w => rfl
      | none => rw [if_neg (by simp [hid])]
    | some j =>
      rw [if_pos (by simp [hid]), lastWith, lastWith, ih]

theorem dedupLastSpec_filter_isSome (all : List Meal) :
    dedupLastSpec (all.filter (fun m => m.idMeal.isSome)) = dedupLastSpec all := by
  rw [dedupLastSpec, dedupLastSpec, firstIds_filter_isSome all []]
  apply List.filterMap_congr
  intro i _
  exact lastWith_filter_isSome i all

/-! ## Unfolding the retry recursion -/

theorem getMealByIdFrom_ok (env : Nat → CallResult) (idx attempts : Nat)
    (meals : Option (List Meal)) (h : env idx = .ok meals) :
    getMealByIdFrom env idx attempts = ⟨mealsFirst meals, 1, 0⟩ := by
  rw [getMealByIdFrom, h]

theorem getMealByIdFrom_fail (env : Nat → CallResult) (idx attempts : Nat)
    (h : (env idx).isSuccess = false) (ha : attempts > 1) :
    getMealByIdFrom env idx attempts =
      ⟨(getMealByIdFrom env (idx + 1) (attempts - 1)).result,
       (getMealByIdFrom env (idx + 1) (attempts - 1)).calls + 1,
       (getMealByIdFrom env (idx + 1) (attempts - 1)).waits + 1⟩ := by
  rw [getMealByIdFrom]
  cases hc : env idx with
  | ok meals => rw [hc] at h; simp [CallResult.isSuccess] at h
  | failure => simp only [dif_pos ha]
  | notOk s => simp only [dif_pos ha]

theorem getMealByIdFrom_fail_last (env : Nat → CallResult) (idx attempts : Nat)
    (h : (env idx).isSuccess = false) (ha : ¬ attempts > 1) :
    getMealByIdFrom env idx attempts = ⟨none, 1, 0⟩ := by
  rw [getMealByIdFrom]
  cases hc : env idx with
  | ok meals => rw [hc] at h; simp [CallResult.isSuccess] at h
  | failure => simp only [dif_neg ha]
  | notOk s => simp only [dif_neg ha]

theorem getMealByIdFrom_success (env : Nat → CallResult) (meals : Option (List Meal)) :
    ∀ k idx attempts, k < attempts →
      (∀ j, j < k → (env (idx + j)).isSuccess = false) →
      env (idx + k) = .ok meals →
      getMealByIdFrom env idx attempts = ⟨mealsFirst meals, k + 1, k⟩ := by
  intro k
  induction k with
  | zero =>
    intro idx attempts _ _ hk
    rw [Nat.add_zero] at hk
    exact getMealByIdFrom_ok env idx attempts meals hk
  | succ n ih =>
    intro idx attempts hlt hfail hk
    have h0 : (env idx).isSuccess = false := by
      have := hfail 0 (Nat.succ_pos n)
      rwa [Nat.add_zero] at this
    have ha : attempts > 1 := by omega
    rw [getMealByIdFrom_fail env idx attempts h0 ha]
    have hrec := ih (idx + 1) (attempts - 1) (by omega)
      (fun j hj => by
        have := hfail (j + 1) (by omega)
        rwa [show idx + (j + 1) = idx + 1 + j by omega] at this)
      (by rwa [show idx + 1 + n = idx + (n + 1) by omega])
    rw [hrec]

/-! ## The claims -/

/-- Claim C1, counterexample: with keys `["a","b"]` whose partial results
both hold a record with id `"1"` (payloads `"A"` and `"B"`), the fan-out
search returns the id once but keeps the record of the LAST occurrence in
concatenation order (`"B"`), while the claimed first-occurrence contract
would keep `"A"`. -/
theorem claimC1_counterexample :
    searchMealsByFirstLetter ["a", "b"]
        (fun s => if s = "a" then .ok (some [⟨some "1", "A"⟩])
          else .ok (some [⟨some "1", "B"⟩]))
      = [⟨some "1", "B"⟩] ∧
    fanoutConcat ["a", "b"]
        (fun s => if s = "a" then .ok (some [⟨some "1", "A"⟩])
          else .ok (some [⟨some "1", "B"⟩]))
      = [⟨some "1", "A"⟩, ⟨some "1", "B"⟩] ∧
    dedupFirstSpec [⟨some "1", "A"⟩, ⟨some "1", "B"⟩] = [⟨some "1", "A"⟩] ∧
    (⟨some "1", "B"⟩ : Meal) ≠ ⟨some "1", "A"⟩ := by
  refine ⟨?_, ?_, ?_, ?_⟩ <;> decide

/-- Claim C1, amended: for every list of keys, `searchMealsByFirstLetter`
concatenates the per-key partial results in fan-out order and
de-duplicates them by record id so that each id occurs exactly once in
the output, in order of first occurrence in that concatenation, and the
record kept for each id is the LAST occurrence in that concatenation
order (id-less records are dropped). -/
theorem claimC1_amended (letters : List String) (env : String → CallResult) :
    searchMealsByFirstLetter letters env = dedupLastSpec (fanoutConcat letters env) ∧
    ((searchMealsByFirstLetter letters env).map Meal.idMeal).Nodup := by
  have h : searchMealsByFirstLetter letters env
      = dedupLastSpec (fanoutConcat letters env) :=
    dedupMeals_eq (fanoutConcat letters env)
  refine ⟨h, ?_⟩
  rw [h, dedupLastSpec_map_idMeal]
  exact List.Nodup.map (Option.some_injective String)
    (firstIds_nodup (fanoutConcat letters env) [])

/-- Claim C2: the three designated outcomes of `getMealsByIngredient` —
empty-list success, the timeout sentinel, and the generic fetch-failure
message — are produced on their respective paths and are pairwise
distinct values; in particular a race lost to the timer yields the
sentinel for every call outcome, never the empty list. -/
theorem claimC2_outcomes_distinct :
    getMealsByIngredient (.ok (some [])) .fetchFirst = .meals [] ∧
    getMealsByIngredient (.ok none) .fetchFirst = .meals [] ∧
    (∀ call, getMealsByIngredient call .timerFirst = .msg timeoutMessage) ∧
    getMealsByIngredient .failure .fetchFirst = .msg genericErrorMessage ∧
    IngredientResult.meals [] ≠ .msg timeoutMessage ∧
    IngredientResult.meals [] ≠ .msg genericErrorMessage ∧
    IngredientResult.msg timeoutMessage ≠ .msg genericErrorMessage ∧
    (∀ call, getMealsByIngredient call .timerFirst ≠ .meals []) := by
  refine ⟨rfl, rfl, fun call => rfl, rfl, by decide, by decide, by decide,
    fun call => by
      show IngredientResult.msg timeoutMessage ≠ IngredientResult.meals []
      decide⟩

/-- Witness for C2: with a rejected fetch, a race lost to the timer still
yields the sentinel and not the empty list. -/
theorem claimC2_witness :
    getMealsByIngredient CallResult.failure .timerFirst = .msg timeoutMessage ∧
    getMealsByIngredient CallResult.failure .timerFirst ≠ .meals [] :=
  ⟨claimC2_outcomes_distinct.2.2.1 CallResult.failure,
   claimC2_outcomes_distinct.2.2.2.2.2.2.2 CallResult.failure⟩

/-- Claim C3: against remote attempts that all fail, `getMealById` with
`attempts = 2` performs exactly 2 fetch attempts with one backoff sleep
between them and resolves to null; no failure is raised to the caller
(the embedding is total, every path returns a value). -/
theorem claimC3_retry_exhaustion (env : Nat → CallResult)
    (h : ∀ i, (env i).isSuccess = false) :
    getMealById env 2 = ⟨none, 2, 1⟩ := by
  rw [getMealById, getMealByIdFrom_fail env 0 2 (h 0) (by omega),
    getMealByIdFrom_fail_last env 1 1 (h 1) (by omega)]

/-- Witness for C3 at the concrete always-failing environment returning
status 500. -/
theorem claimC3_witness :
    (∀ i : Nat, ((fun _ => CallResult.notOk 500) i).isSuccess = false) ∧
    getMealById (fun _ => CallResult.notOk 500) 2 = ⟨none, 2, 1⟩ :=
  ⟨fun _ => rfl,
    claimC3_retry_exhaustion (fun _ => CallResult.notOk 500) (fun _ => rfl)⟩

/-- Claim C4: if the per-key call of the `i`-th key fails, the fan-out
result equals the fan-out result over the remaining keys: the failure
contributes an empty partial result only and never aborts the batch. -/
theorem claimC4_fanout_tolerance (letters : List String) (env : String → CallResult)
    (i : Nat) (h : i < letters.length)
    (hfail : (env (charAt0 (letters.get ⟨i, h⟩))).isFailureCall = true) :
    searchMealsByFirstLetter letters env
      = searchMealsByFirstLetter (letters.eraseIdx i) env := by
  rw [searchMealsByFirstLetter, searchMealsByFirstLetter, fanoutConcat, fanoutConcat,
    flatten_map_eraseIdx (fun l => perKeyResult (env (charAt0 l))) letters i h
      (perKeyResult_empty_of_failure _ hfail)]

/-- Witness for C4: two keys with the second one failing. -/
theorem claimC4_witness :
    ((fun s => if s = "b" then CallResult.failure
        else CallResult.ok (some [⟨some "7", "x"⟩]))
      (charAt0 ((["a", "b"] : List String).get ⟨1, by decide⟩))).isFailureCall = true ∧
    searchMealsByFirstLetter ["a", "b"]
        (fun s => if s = "b" then CallResult.failure
          else CallResult.ok (some [⟨some "7", "x"⟩]))
      = searchMealsByFirstLetter ((["a", "b"] : List String).eraseIdx 1)
          (fun s => if s = "b" then CallResult.failure
            else CallResult.ok (some [⟨some "7", "x"⟩])) :=
  ⟨by decide,
    claimC4_fanout_tolerance ["a", "b"]
      (fun s => if s = "b" then CallResult.failure
        else CallResult.ok (some [⟨some "7", "x"⟩])) 1 (by decide) (by decide)⟩

/-- Claim C5 (code defect): `getRandomMeal` never queries the random-pick
endpoint and never returns a meal: its body throws a ReferenceError on
the unbound identifier `recipe` before any request, and the catch turns
that into `[]` for every environment of remote outcomes. -/
theorem claimC5_random_defect (env : String → CallResult) :
    getRandomMeal env = .list [] ∧
    ∀ env2 : String → CallResult, getRandomMeal env = getRandomMeal env2 := by
  exact ⟨rfl, fun _ => rfl⟩

/-- Claim C6 (code defect): `getRelatedRecipes` never returns a non-empty
list: for a recipe without a truthy `ok` property (every ordinary recipe
record) the guard fails and the function returns `undefined` without
fetching; otherwise every continuation throws and the catch returns `[]`. -/
theorem claimC6_related_defect (env : String → CallResult) (recipe : Recipe)
    (limit : Nat) :
    (getRelatedRecipes env recipe limit = .jsUndefined ∨
      getRelatedRecipes env recipe limit = .list []) ∧
    (recipe.ok = false → getRelatedRecipes env recipe limit = .jsUndefined) := by
  constructor
  · rw [getRelatedRecipes, relatedTryBlock]
    by_cases hg : (recipe.ok && recipe.strCategory.isSome) = true
    · rw [if_pos hg]
      right
      cases env ("filter.php?c=" ++ recipe.strCategory.getD "") <;> rfl
    · rw [if_neg hg]
      left
      rfl
  · intro hok
    rw [getRelatedRecipes, relatedTryBlock, hok]
    rfl

/-- Witness for C6: an ordinary recipe record (no `ok` property, truthy
category) makes `getRelatedRecipes` return `undefined` without fetching. -/
theorem claimC6_witness :
    getRelatedRecipes (fun _ => CallResult.ok (some [⟨some "1", "other"⟩]))
        ⟨false, some "Beef", some "52772"⟩ 3 = .jsUndefined :=
  (claimC6_related_defect (fun _ => CallResult.ok (some [⟨some "1", "other"⟩]))
      ⟨false, some "Beef", some "52772"⟩ 3).2 rfl

/-- Claim C7 (coordinator modelled from the spec): when the producer
invoked on a cache miss fails, the failure propagates unmodified, the
cache state is unchanged, and a later `getCachedOrFetch` on the same key
invokes the producer again (exactly once). -/
theorem claimC7_no_poison {V : Type} (s : CacheState V) (now now2 ttl ttl2 : Nat)
    (key msg : String) (p2 : ProducerResult V)
    (hmiss : cacheMiss s key now = true) (hle : now ≤ now2) :
    getCachedOrFetch s now key (.err msg) ttl = (.err msg, s, 1) ∧
    (getCachedOrFetch s now2 key p2 ttl2).2.2 = 1 := by
  rw [cacheMiss] at hmiss
  cases hget : cacheGet s key with
  | none =>
    constructor
    · rw [getCachedOrFetch.eq_def, hget]
    · rw [getCachedOrFetch.eq_def, hget]
      cases p2 <;> rfl
  | some e =>
    rw [hget] at hmiss
    have hfresh : entryFresh e now = false := by simpa using hmiss
    have hfresh2 : entryFresh e now2 = false := by
      rw [entryFresh] at hfresh ⊢
      simp only [decide_eq_false_iff_not] at hfresh ⊢
      omega
    constructor
    · simp [getCachedOrFetch.eq_def, hget, hfresh]
    · simp only [getCachedOrFetch.eq_def, hget, hfresh2]
      cases p2 <;> simp

/-- Witness for C7: empty cache, failing then succeeding producer. -/
theorem claimC7_witness :
    cacheMiss (⟨[]⟩ : CacheState Nat) "k" 0 = true ∧ (0 : Nat) ≤ 5 ∧
    getCachedOrFetch (⟨[]⟩ : CacheState Nat) 0 "k" (.err "boom") 1000
      = (.err "boom", ⟨[]⟩, 1) ∧
    (getCachedOrFetch (⟨[]⟩ : CacheState Nat) 5 "k" (.ok 3) 1000).2.2 = 1 :=
  ⟨rfl, by omega,
    (claimC7_no_poison (⟨[]⟩ : CacheState Nat) 0 5 1000 1000 "k" "boom"
      (.ok 3) rfl (by omega)).1,
    (claimC7_no_poison (⟨[]⟩ : CacheState Nat) 0 5 1000 1000 "k" "boom"
      (.ok 3) rfl (by omega)).2⟩

/-- Claim C8: each list-returning operation normalizes a null/absent
`meals` field to the empty list: `searchMealsByName`,
`searchMealsByFirstLetter` (every per-key body null), and
`getMealsByIngredient` all return `[]` rather than null or a failure. -/
theorem claimC8_null_normalized :
    searchMealsByName (.ok none) = [] ∧
    (∀ letters : List String,
      searchMealsByFirstLetter letters (fun _ => .ok none) = []) ∧
    getMealsByIngredient (.ok none) .fetchFirst = .meals [] := by
  refine ⟨rfl, ?_, rfl⟩
  intro letters
  rw [searchMealsByFirstLetter, fanoutConcat]
  have h2 : (letters.map
      (fun letter => perKeyResult ((fun _ => CallResult.ok none) (charAt0 letter)))).flatten
      = [] := by
    induction letters with
    | nil => rfl
    | cons x xs ih =>
      rw [List.map_cons, List.flatten_cons, ih]
      rfl
  rw [h2]
  rfl

/-- Claim C9: when the `(k+1)`-th remote attempt of `getMealById` is the
first to succeed (within the attempt budget), the call resolves to the
first element of the decoded result list, or null when that list is
empty or absent. -/
theorem claimC9_success_first (env : Nat → CallResult) (attempts k : Nat)
    (meals : Option (List Meal)) (h1 : k < attempts)
    (h2 : ∀ j, j < k → (env j).isSuccess = false) (h3 : env k = .ok meals) :
    (getMealById env attempts).result = (meals.getD []).head? := by
  rw [getMealById,
    getMealByIdFrom_success env meals k 0 attempts h1
      (fun j hj => by simpa using h2 j hj) (by simpa using h3)]
  exact mealsFirst_eq_head meals

/-- Witness for C9: an immediately succeeding environment. -/
theorem claimC9_witness :
    (0 : Nat) < 2 ∧
    (getMealById (fun _ => CallResult.ok (some [⟨some "42", "m"⟩])) 2).result
      = ((some [⟨some "42", "m"⟩] : Option (List Meal)).getD []).head? :=
  ⟨by omega,
    claimC9_success_first (fun _ => CallResult.ok (some [⟨some "42", "m"⟩])) 2 0
      (some [⟨some "42", "m"⟩]) (by omega)
      (fun j hj => absurd hj (by omega)) rfl⟩

/-- Claim C10: records lacking an `idMeal` field never appear in the
output of the fan-out search — they all collapse onto the Map's null key
and are filtered out — and the output is unchanged if id-less records
are discarded from the concatenated partial results beforehand. -/
theorem claimC10_idless_dropped (letters : List String) (env : String → CallResult) :
    (∀ m, m ∈ searchMealsByFirstLetter letters env → m.idMeal ≠ none) ∧
    searchMealsByFirstLetter letters env
      = dedupLastSpec ((fanoutConcat letters env).filter (fun m => m.idMeal.isSome)) := by
  constructor
  · intro m h
    rw [searchMealsByFirstLetter, dedupMeals_eq] at h
    rcases mem_dedupLastSpec_idMeal _ m h with ⟨i, hi⟩
    rw [hi]
    simp
  · rw [searchMealsByFirstLetter, dedupMeals_eq, dedupLastSpec_filter_isSome]

/-- Witness for C10: a succeeding per-key call whose body holds one
id-less record and one identified record; the theorem applies to show the
surviving member has an id. -/
theorem claimC10_witness :
    (⟨some "9", "kept"⟩ : Meal)
        ∈ searchMealsByFirstLetter ["a"]
            (fun _ => .ok (some [⟨none, "dropped"⟩, ⟨some "9", "kept"⟩])) ∧
    (⟨some "9", "kept"⟩ : Meal).idMeal ≠ none :=
  ⟨by decide,
    (claimC10_idless_dropped ["a"]
        (fun _ => .ok (some [⟨none, "dropped"⟩, ⟨some "9", "kept"⟩]))).1
      ⟨some "9", "kept"⟩ (by decide)⟩

end RecipeExplorer
